/-
  Verification of the MBDB media-recovery tool (recover_media.py).

  The Python source is shallowly embedded: byte buffers are `List Nat`
  (each element a byte value), Python integers are `Nat`, fallible code
  (Python exceptions) returns `Option`/`Except`, and the global
  traversal state of the orchestrator is threaded explicitly.
-/
import Mathlib

deriving instance DecidableEq for Except

namespace RecoverMedia

/-! ## Record decoder (`getint`, `getstring`)

`getint` walks `intsize` bytes big-endian, accumulating
`value = value * 256 + data[offset]`; an out-of-range index access in
Python raises IndexError, modelled by `none`. -/

def getintAux (data : List Nat) (value offset intsize : Nat) : Option (Nat × Nat) :=
  match intsize with
  | 0 => some (value, offset)
  | n + 1 =>
    match data[offset]? with
    | none => none
    | some b => getintAux data (value * 256 + b) (offset + 1) n

def getint (data : List Nat) (offset intsize : Nat) : Option (Nat × Nat) :=
  getintAux data 0 offset intsize

/-- `getstring`: peek two bytes; `0xFF 0xFF` is the blank-string sentinel,
otherwise a 2-byte big-endian length followed by that many raw bytes.
The Python slice `data[offset:offset+length]` silently truncates when
`length` overruns the buffer, which `List.take` reproduces.  If either
peeked byte is out of range the Python code raises IndexError (from the
sentinel comparison or from `getint`), hence the `none` arm. -/
def getstring (data : List Nat) (offset : Nat) : Option (List Nat × Nat) :=
  match data[offset]?, data[offset + 1]? with
  | some b0, some b1 =>
    if b0 = 255 ∧ b1 = 255 then
      some ([], offset + 2)
    else
      match getint data offset 2 with
      | none => none
      | some (length, off2) => some ((data.drop off2).take length, off2 + length)
  | _, _ => none

/-! ## CPython UTF-8 decoding and encoding

`decodeRepl` models `bytes.decode("utf-8", "replace")`: one U+FFFD per
maximal invalid subpart (the W3C rule CPython implements), with the
CPython range checks per lead byte (C2..DF, E0/ED specials excluding
surrogates, F0/F4 specials capping at U+10FFFF).
`decodeStrict` models `bytes.decode("utf-8")`, where any invalid byte
sequence raises UnicodeDecodeError (`none`). -/

def repl : Char := Char.ofNat 0xFFFD

def contOk (c : Nat) : Bool := decide (128 ≤ c ∧ c < 192)

def decodeRepl : List Nat → List Char
  | [] => []
  | b :: rest =>
    if b < 128 then Char.ofNat b :: decodeRepl rest
    else if b < 194 then repl :: decodeRepl rest
    else if b < 224 then
      match rest with
      | [] => [repl]
      | c1 :: rest1 =>
        if contOk c1 then Char.ofNat ((b - 192) * 64 + (c1 - 128)) :: decodeRepl rest1
        else repl :: decodeRepl (c1 :: rest1)
    else if b < 240 then
      let lo := if b = 224 then 160 else 128
      let hi := if b = 237 then 160 else 192
      match rest with
      | [] => [repl]
      | c1 :: rest1 =>
        if lo ≤ c1 ∧ c1 < hi then
          match rest1 with
          | [] => [repl]
          | c2 :: rest2 =>
            if contOk c2 then
              Char.ofNat ((b - 224) * 4096 + (c1 - 128) * 64 + (c2 - 128)) :: decodeRepl rest2
            else repl :: decodeRepl (c2 :: rest2)
        else repl :: decodeRepl (c1 :: rest1)
    else if b < 245 then
      let lo := if b = 240 then 144 else 128
      let hi := if b = 244 then 144 else 192
      match rest with
      | [] => [repl]
      | c1 :: rest1 =>
        if lo ≤ c1 ∧ c1 < hi then
          match rest1 with
          | [] => [repl]
          | c2 :: rest2 =>
            if contOk c2 then
              match rest2 with
              | [] => [repl]
              | c3 :: rest3 =>
                if contOk c3 then
                  Char.ofNat ((b - 240) * 262144 + (c1 - 128) * 4096 + (c2 - 128) * 64 +
                    (c3 - 128)) :: decodeRepl rest3
                else repl :: decodeRepl (c3 :: rest3)
            else repl :: decodeRepl (c2 :: rest2)
        else repl :: decodeRepl (c1 :: rest1)
    else repl :: decodeRepl rest

def decodeStrict : List Nat → Option (List Char)
  | [] => some []
  | b :: rest =>
    if b < 128 then (decodeStrict rest).map (Char.ofNat b :: ·)
    else if b < 194 then none
    else if b < 224 then
      match rest with
      | [] => none
      | c1 :: rest1 =>
        if contOk c1 then (decodeStrict rest1).map (Char.ofNat ((b - 192) * 64 + (c1 - 128)) :: ·)
        else none
    else if b < 240 then
      let lo := if b = 224 then 160 else 128
      let hi := if b = 237 then 160 else 192
      match rest with
      | [] => none
      | c1 :: rest1 =>
        if lo ≤ c1 ∧ c1 < hi then
          match rest1 with
          | [] => none
          | c2 :: rest2 =>
            if contOk c2 then
              (decodeStrict rest2).map
                (Char.ofNat ((b - 224) * 4096 + (c1 - 128) * 64 + (c2 - 128)) :: ·)
            else none
        else none
    else if b < 245 then
      let lo := if b = 240 then 144 else 128
      let hi := if b = 244 then 144 else 192
      match rest with
      | [] => none
      | c1 :: rest1 =>
        if lo ≤ c1 ∧ c1 < hi then
          match rest1 with
          | [] => none
          | c2 :: rest2 =>
            if contOk c2 then
              match rest2 with
              | [] => none
              | c3 :: rest3 =>
                if contOk c3 then
                  (decodeStrict rest3).map
                    (Char.ofNat ((b - 240) * 262144 + (c1 - 128) * 4096 + (c2 - 128) * 64 +
                      (c3 - 128)) :: ·)
                else none
            else none
        else none
    else none

/-- `str.encode("utf-8")` for one character. -/
def encodeChar (c : Char) : List Nat :=
  let n := c.toNat
  if n < 128 then [n]
  else if n < 2048 then [192 + n / 64, 128 + n % 64]
  else if n < 65536 then [224 + n / 4096, 128 + n / 64 % 64, 128 + n % 64]
  else [240 + n / 262144, 128 + n / 4096 % 64, 128 + n / 64 % 64, 128 + n % 64]

/-- `str.encode("utf-8")` for a whole string. -/
def encodeUtf8 (s : List Char) : List Nat := (s.map encodeChar).flatten

/-! ## SHA-1 (`hashlib.sha1`), FIPS 180-4, executable on byte lists. -/

def rotl (n x : Nat) : Nat := (x * 2 ^ n + x / 2 ^ (32 - n)) % 4294967296

def sha1F (t b c d : Nat) : Nat :=
  if t < 20 then (b &&& c) ||| ((4294967295 - b) &&& d)
  else if t < 40 then b ^^^ c ^^^ d
  else if t < 60 then (b &&& c) ||| (b &&& d) ||| (c &&& d)
  else b ^^^ c ^^^ d

def sha1K (t : Nat) : Nat :=
  if t < 20 then 0x5A827999
  else if t < 40 then 0x6ED9EBA1
  else if t < 60 then 0x8F1BBCDC
  else 0xCA62C1D6

def bytesToWords : List Nat → List Nat
  | b0 :: b1 :: b2 :: b3 :: rest =>
    (((b0 * 256 + b1) * 256 + b2) * 256 + b3) :: bytesToWords rest
  | _ => []

/-- `k` bytes of `n`, big-endian. -/
def toBytesBE (k n : Nat) : List Nat :=
  match k with
  | 0 => []
  | j + 1 => toBytesBE j (n / 256) ++ [n % 256]

/-- Message-schedule extension; `rws` holds the words most recent first. -/
def sha1Extend (rws : List Nat) : Nat → List Nat
  | 0 => rws.reverse
  | k + 1 =>
    sha1Extend (rotl 1 (rws.getD 2 0 ^^^ rws.getD 7 0 ^^^ rws.getD 13 0 ^^^ rws.getD 15 0) :: rws) k

def sha1Rounds (t a b c d e : Nat) : List Nat → Nat × Nat × Nat × Nat × Nat
  | [] => (a, b, c, d, e)
  | w :: ws =>
    sha1Rounds (t + 1) ((rotl 5 a + sha1F t b c d + e + sha1K t + w) % 4294967296)
      a (rotl 30 b) c d ws

/-- One 64-byte block per iteration; the fuel argument (initially the byte
count, an upper bound on the block count) only makes the recursion
structural, it never runs out on the real call. -/
def sha1BlocksAux : Nat → Nat × Nat × Nat × Nat × Nat → List Nat → Nat × Nat × Nat × Nat × Nat
  | _, h, [] => h
  | 0, h, _ :: _ => h
  | fuel + 1, (a0, b0, c0, d0, e0), x :: rest =>
    let ws := sha1Extend (bytesToWords ((x :: rest).take 64)).reverse 64
    let s := sha1Rounds 0 a0 b0 c0 d0 e0 ws
    sha1BlocksAux fuel
      ((a0 + s.1) % 4294967296, (b0 + s.2.1) % 4294967296, (c0 + s.2.2.1) % 4294967296,
        (d0 + s.2.2.2.1) % 4294967296, (e0 + s.2.2.2.2) % 4294967296) ((x :: rest).drop 64)

def sha1Blocks (a0 b0 c0 d0 e0 : Nat) (msg : List Nat) : Nat × Nat × Nat × Nat × Nat :=
  sha1BlocksAux msg.length (a0, b0, c0, d0, e0) msg

def sha1Pad (msg : List Nat) : List Nat :=
  msg ++ [128] ++ List.replicate ((64 + 55 - msg.length % 64) % 64) 0 ++
    toBytesBE 8 (8 * msg.length)

def sha1 (msg : List Nat) : List Nat :=
  let s := sha1Blocks 0x67452301 0xEFCDAB89 0x98BADCFE 0x10325476 0xC3D2E1F0 (sha1Pad msg)
  toBytesBE 4 s.1 ++ toBytesBE 4 s.2.1 ++ toBytesBE 4 s.2.2.1 ++
    toBytesBE 4 s.2.2.2.1 ++ toBytesBE 4 s.2.2.2.2

def hexDigit (n : Nat) : Char := if n < 10 then Char.ofNat (48 + n) else Char.ofNat (87 + n)

def byteToHex (b : Nat) : List Char := [hexDigit (b / 16), hexDigit (b % 16)]

/-- `hashlib.sha1(msg).hexdigest()`: lowercase hex of the 160-bit digest. -/
def sha1Hex (msg : List Nat) : String := String.mk (((sha1 msg).map byteToHex).flatten)

set_option maxRecDepth 20000000

/-- Sanity: FIPS 180 test vector, SHA-1 of the empty message. -/
example : sha1Hex [] = "da39a3ee5e6b4b0d3255bfef95601890afd80709" := by decide

/-- Sanity: FIPS 180 test vector, SHA-1 of ASCII abc. -/
example : sha1Hex [97, 98, 99] = "a9993e364706816aba3e25717850c26c9cd0d89d" := by decide

/-! ## Identifier deriver

The source computes
`fullpath = (domain + b'-' + filename).decode("utf-8", "replace")` and
then `hashlib.sha1(fullpath.encode('utf-8')).hexdigest()`: the byte
concatenation is lossily decoded and re-encoded before hashing. -/

/-- The storage identifier (`mbdx` entry) exactly as the source derives it. -/
def fileID (domain filename : List Nat) : String :=
  sha1Hex (encodeUtf8 (decodeRepl (domain ++ [45] ++ filename)))

/-- Modelled from the spec (for comparison with `fileID`, which embeds the
source): `storage_id = HashHex(concat(domain, b'-', filename))` applied to
the raw, encoding-preserving concatenation, with no lossy text decoding
before hashing. -/
def specStorageId (domain filename : List Nat) : String :=
  sha1Hex (domain ++ [45] ++ filename)

/-! ## Manifest reader (`process_mbdb_file`) -/

structure FileRecord where
  start_offset : Nat
  domain : List Nat
  filename : List Nat
  linktarget : List Nat
  datahash : List Nat
  unknown1 : List Nat
  mode : Nat
  unknown2 : Nat
  unknown3 : Nat
  userid : Nat
  groupid : Nat
  mtime : Nat
  atime : Nat
  ctime : Nat
  filelen : Nat
  flag : Nat
  numprops : Nat
  rawProps : List (List Nat × List Nat)
deriving DecidableEq

/-- The `for _ in range(numprops)` loop body: a name/value string pair per
iteration, kept here as the raw byte pairs in read order. -/
def parseProps (data : List Nat) : Nat → Nat → Option (List (List Nat × List Nat) × Nat)
  | off, 0 => some ([], off)
  | off, n + 1 =>
    match getstring data off with
    | none => none
    | some (name, o1) =>
      match getstring data o1 with
      | none => none
      | some (val, o2) =>
        match parseProps data o2 n with
        | none => none
        | some (rest, o3) => some ((name, val) :: rest, o3)

/-- Python's `fileinfo['properties']` dict assignment: insertion-ordered,
unique keys, a later duplicate name overwrites the earlier value in place. -/
def dictInsert (m : List (String × String)) (k v : String) : List (String × String) :=
  match m with
  | [] => [(k, v)]
  | (k2, v2) :: rest => if k2 = k then (k2, v) :: rest else (k2, v2) :: dictInsert rest k v

/-- The property pairs after `decode("utf-8", "replace")` on each side. -/
def decodedProps (r : FileRecord) : List (String × String) :=
  r.rawProps.map (fun p => (String.mk (decodeRepl p.1), String.mk (decodeRepl p.2)))

/-- `fileinfo['properties']`: each decoded pair dict-assigned in read order. -/
def properties (r : FileRecord) : List (String × String) :=
  (decodedProps r).foldl (fun m p => dictInsert m p.1 p.2) []

/-- One iteration of the `while offset < len(data)` body: the fixed field
sequence of a record, in source order. -/
def parseRecord (data : List Nat) (off : Nat) : Option (FileRecord × Nat) :=
  match getstring data off with
  | none => none
  | some (domain, o1) =>
  match getstring data o1 with
  | none => none
  | some (filename, o2) =>
  match getstring data o2 with
  | none => none
  | some (linktarget, o3) =>
  match getstring data o3 with
  | none => none
  | some (datahash, o4) =>
  match getstring data o4 with
  | none => none
  | some (unknown1, o5) =>
  match getint data o5 2 with
  | none => none
  | some (mode, o6) =>
  match getint data o6 4 with
  | none => none
  | some (unknown2, o7) =>
  match getint data o7 4 with
  | none => none
  | some (unknown3, o8) =>
  match getint data o8 4 with
  | none => none
  | some (userid, o9) =>
  match getint data o9 4 with
  | none => none
  | some (groupid, o10) =>
  match getint data o10 4 with
  | none => none
  | some (mtime, o11) =>
  match getint data o11 4 with
  | none => none
  | some (atime, o12) =>
  match getint data o12 4 with
  | none => none
  | some (ctime, o13) =>
  match getint data o13 8 with
  | none => none
  | some (filelen, o14) =>
  match getint data o14 1 with
  | none => none
  | some (flag, o15) =>
  match getint data o15 1 with
  | none => none
  | some (numprops, o16) =>
  match parseProps data o16 numprops with
  | none => none
  | some (rawProps, o17) =>
    some ({ start_offset := off, domain := domain, filename := filename,
            linktarget := linktarget, datahash := datahash, unknown1 := unknown1,
            mode := mode, unknown2 := unknown2, unknown3 := unknown3,
            userid := userid, groupid := groupid, mtime := mtime, atime := atime,
            ctime := ctime, filelen := filelen, flag := flag,
            numprops := numprops, rawProps := rawProps }, o17)

/-- The `while offset < len(data)` loop.  It returns the records in read
order, the `mbdx` identifier map built alongside (one entry per record, from
line 69 of the source), and the final value of `offset`.  The fuel argument
only makes the recursion structural: each iteration advances `offset` by at
least 52 bytes, so with the initial fuel `data.length + 1` the zero-fuel arm
is never reached (`parseLoopAux_fuel` below makes this precise). -/
def parseLoopAux (data : List Nat) :
    Nat → Nat → Option (List FileRecord × List (Nat × String) × Nat)
  | 0, offset => if offset < data.length then none else some ([], [], offset)
  | fuel + 1, offset =>
    if offset < data.length then
      match parseRecord data offset with
      | none => none
      | some (r, off2) =>
        match parseLoopAux data fuel off2 with
        | none => none
        | some (recs, idx, fin) =>
          some (r :: recs, (r.start_offset, fileID r.domain r.filename) :: idx, fin)
    else some ([], [], offset)

inductive ParseErr
  | invalidMagic
  | outOfBounds
deriving DecidableEq

structure MbdbResult where
  records : List FileRecord
  mbdx : List (Nat × String)
  finalOffset : Nat
deriving DecidableEq

def mbdbMagic : List Nat := [109, 98, 100, 98]

/-- `process_mbdb_file`, on the manifest bytes (the file read itself is an
external I/O collaborator).  `invalidMagic` is the explicit
`This does not look like an MBDB file` exception; `outOfBounds` is the
IndexError a field read past the buffer end raises. -/
def process_mbdb_file (data : List Nat) : Except ParseErr MbdbResult :=
  if data.take 4 = mbdbMagic then
    match parseLoopAux data (data.length + 1) 6 with
    | none => .error .outOfBounds
    | some (recs, idx, fin) => .ok ⟨recs, idx, fin⟩
  else .error .invalidMagic

/-! ## Extension classifier (`extension`, line 104-107) -/

/-- `str.lower()` restricted to ASCII letters.  (Python lowers the full
Unicode table; every string this development compares extensions against is
ASCII, where the two agree.) -/
def toLowerAscii (c : Char) : Char :=
  if 65 ≤ c.toNat ∧ c.toNat ≤ 90 then Char.ofNat (c.toNat + 32) else c

/-- Python `s.rfind('.')`: index of the last dot, `none` for Python's -1. -/
def pyRfindDot : List Char → Option Nat
  | [] => none
  | c :: rest =>
    match pyRfindDot rest with
    | some i => some (i + 1)
    | none => if c = '.' then some 0 else none

/-- `s[s.rfind('.'):].lower()` on an already decoded string: from the last
dot to the end; when there is no dot, Python's `s[-1:]` yields the final
character (or the empty string for an empty `s`). -/
def pyExt (s : List Char) : List Char :=
  match pyRfindDot s with
  | some i => (s.drop i).map toLowerAscii
  | none => (s.drop (s.length - 1)).map toLowerAscii

/-- `extension(filename)`: the bytes case first decodes with
`decode("utf-8", "replace")`. -/
def extension (b : List Nat) : String := String.mk (pyExt (decodeRepl b))

def mediaExtensions : List String :=
  [".jpg", ".jpeg", ".png", ".tiff", ".heic", ".mov", ".mp4", ".mp3", ".pdf"]

/-! ## Recovery orchestrator (`main`, lines 115-149)

External collaborators (CLI parsing, directory creation, `shutil.copy`,
console printing, `datetime.fromtimestamp(..).strftime(..)`) are modelled
as: a `blobs` set naming the storage-id files present in the backup
directory (a copy succeeds exactly when the source name is in it), a
`dateOf` parameter for the local-calendar rendering of `ctime`, and event
lists collecting the copies performed and the diagnostics printed. -/

/-- Python `offset in mbdx` / `mbdx[offset]`. -/
def lookupIdx (idx : List (Nat × String)) (k : Nat) : Option String :=
  match idx with
  | [] => none
  | (k2, v) :: rest => if k2 = k then some v else lookupIdx rest k

/-- `seen_dates[date]` with 0 for an absent key. -/
def lookupCount (sd : List (String × Nat)) (d : String) : Nat :=
  match sd with
  | [] => 0
  | (k, v) :: rest => if k = d then v else lookupCount rest d

/-- `if date in seen_dates: seen_dates[date] += 1 else: seen_dates[date] = 1`. -/
def bumpDate (sd : List (String × Nat)) (d : String) : List (String × Nat) :=
  match sd with
  | [] => [(d, 1)]
  | (k, v) :: rest => if k = d then (k, v + 1) :: rest else (k, v) :: bumpDate rest d

/-- One successful `shutil.copy`: the components of the destination name
`f"{date}_{seen_dates[date]}{ext}"`, the assembled name, and the storage id
the bytes came from. -/
structure CopyEvent where
  date : String
  seq : Nat
  ext : String
  dest : String
  fid : String
deriving DecidableEq

/-- The orchestrator's traversal state: copies performed, the
`Could not locate file` diagnostics (storage id, strictly decoded filename),
the `No fileID found` diagnostics (record offsets), `media_recovered`, and
`seen_dates`. -/
structure RunState where
  copies : List CopyEvent
  missing : List (String × String)
  nofid : List Nat
  recovered : Nat
  seenDates : List (String × Nat)
deriving DecidableEq

inductive RunErr
  | parseFail (e : ParseErr)
  | unicodeError
deriving DecidableEq

/-- The body of `for offset, fileinfo in mbdb.items()`: bump the per-date
counter before the copy attempt; a missing source is the non-fatal
`except FileNotFoundError` branch, whose diagnostic strictly decodes the
filename (`fileinfo["filename"].decode("utf-8")`, line 144) and therefore
itself raises on non-UTF-8 filenames. -/
def processRecord (dateOf : Nat → String) (blobs : List String) (idx : List (Nat × String))
    (st : RunState) (r : FileRecord) : Except RunErr RunState :=
  match lookupIdx idx r.start_offset with
  | some fid =>
    let ext := extension r.filename
    if ext ∈ mediaExtensions then
      let date := dateOf r.ctime
      let sd := bumpDate st.seenDates date
      let n := lookupCount sd date
      let dest := date ++ "_" ++ toString n ++ ext
      if fid ∈ blobs then
        Except.ok { st with copies := st.copies ++ [⟨date, n, ext, dest, fid⟩],
                            recovered := st.recovered + 1, seenDates := sd }
      else
        match decodeStrict r.filename with
        | some fn => Except.ok { st with missing := st.missing ++ [(fid, String.mk fn)],
                                         seenDates := sd }
        | none => Except.error RunErr.unicodeError
    else Except.ok st
  | none => Except.ok { st with nofid := st.nofid ++ [r.start_offset] }

def runLoop (dateOf : Nat → String) (blobs : List String) (idx : List (Nat × String)) :
    RunState → List FileRecord → Except RunErr RunState
  | st, [] => Except.ok st
  | st, r :: rs =>
    match processRecord dateOf blobs idx st r with
    | Except.error e => Except.error e
    | Except.ok st2 => runLoop dateOf blobs idx st2 rs

/-- `main`, from the manifest bytes on: parse (its failure aborts the run
before the destination folder is created and before any record is
processed), then traverse the records in parse order starting from the
empty state. -/
def main (dateOf : Nat → String) (blobs : List String) (data : List Nat) :
    Except RunErr RunState :=
  match process_mbdb_file data with
  | .error e => .error (.parseFail e)
  | .ok pr => runLoop dateOf blobs pr.mbdx ⟨[], [], [], 0, []⟩ pr.records

/-! ## Derived record predicates used by the per-date numbering analysis -/

/-- The record is attempted on date `d`: it resolves in the identifier map,
its extension is media, and its `ctime` renders to `d`.  These are exactly
the conditions under which the orchestrator bumps `seen_dates[d]`. -/
def attToday (dateOf : Nat → String) (idx : List (Nat × String)) (d : String)
    (r : FileRecord) : Prop :=
  (lookupIdx idx r.start_offset).isSome = true ∧
    extension r.filename ∈ mediaExtensions ∧ dateOf r.ctime = d

instance (dateOf : Nat → String) (idx : List (Nat × String)) (d : String) (r : FileRecord) :
    Decidable (attToday dateOf idx d r) := by unfold attToday; infer_instance

/-- How many records of `recs` are attempted on date `d`. -/
def attemptsOn (dateOf : Nat → String) (idx : List (Nat × String)) (recs : List FileRecord)
    (d : String) : Nat :=
  recs.countP (fun r => decide (attToday dateOf idx d r))

/-- The destination-name suffixes of the copies made for date `d`, in copy
order. -/
def sfx (l : List CopyEvent) (d : String) : List Nat :=
  (l.filter (fun c => c.date == d)).map (fun c => c.seq)

/-! ## Concrete inputs for witnesses and counterexamples -/

/-- A constant stand-in for `datetime.fromtimestamp(..).strftime("%Y_%m_%d")`. -/
def cD : Nat → String := fun _ => "D"

/-- `.jpg` as filename bytes. -/
def w1fn : List Nat := [46, 106, 112, 103]

/-- A one-record manifest: blank domain, filename `.jpg`, all numeric fields
zero, no properties. -/
def w1data : List Nat := mbdbMagic ++ [5, 0] ++ [255, 255] ++ [0, 4] ++ w1fn ++
  [255, 255, 255, 255, 255, 255] ++ List.replicate 40 0

def w1rec : FileRecord := ⟨6, [], w1fn, [], [], [], 0, 0, 0, 0, 0, 0, 0, 0, 0, 0, 0, []⟩

def w1pr : MbdbResult := ⟨[w1rec], [(6, fileID [] w1fn)], 60⟩

def w1res : RunState :=
  ⟨[⟨"D", 1, ".jpg", "D_1.jpg", fileID [] w1fn⟩], [], [], 1, [("D", 1)]⟩

/-- Record bytes (blank domain, given filename, zero numerics, no
properties) for assembling multi-record manifests. -/
def recBytes (fn : List Nat) : List Nat :=
  [255, 255] ++ [0, fn.length] ++ fn ++ [255, 255, 255, 255, 255, 255] ++
    List.replicate 40 0

def xjpg : List Nat := [120, 46, 106, 112, 103]

def yjpg : List Nat := [121, 46, 106, 112, 103]

/-- Two records sharing the (constant) date, filenames `x.jpg` and `y.jpg`. -/
def C4buf : List Nat := mbdbMagic ++ [5, 0] ++ recBytes xjpg ++ recBytes yjpg

/-- Filename bytes `\xff.jpg`: media extension, but not valid UTF-8. -/
def badfn : List Nat := [255, 46, 106, 112, 103]

/-- One record whose filename is `\xff.jpg`. -/
def C6buf : List Nat := mbdbMagic ++ [5, 0] ++ recBytes badfn

/-- One record with `numprops = 1` whose property value declares length 5
while only 2 bytes remain in the buffer. -/
def C2buf : List Nat := mbdbMagic ++ [5, 0] ++ List.replicate 10 255 ++
  List.replicate 38 0 ++ [0, 1] ++ [255, 255] ++ [0, 5] ++ [9, 9]

/-- One record with two property pairs sharing the name `a`, values `1`
and `2`. -/
def C3buf : List Nat := mbdbMagic ++ [5, 0] ++ List.replicate 10 255 ++
  List.replicate 38 0 ++ [0, 2] ++ [0, 1, 97] ++ [0, 1, 49] ++ [0, 1, 97] ++ [0, 1, 50]

/-- One record with a single property pair `a` to `b`. -/
def C3wbuf : List Nat := mbdbMagic ++ [5, 0] ++ List.replicate 10 255 ++
  List.replicate 38 0 ++ [0, 1] ++ [0, 1, 97] ++ [0, 1, 98]

def C3wrec : FileRecord :=
  ⟨6, [], [], [], [], [], 0, 0, 0, 0, 0, 0, 0, 0, 0, 0, 1, [([97], [98])]⟩

/-- A record whose filename is `a.txt` (extension outside the allow-list). -/
def w8rec : FileRecord :=
  ⟨6, [], [97, 46, 116, 120, 116], [], [], [], 0, 0, 0, 0, 0, 0, 0, 0, 0, 0, 0, []⟩

/-- A record-free manifest: just the magic and the two skipped bytes. -/
def w0data : List Nat := mbdbMagic ++ [5, 0]

/-- A record whose filename is `IMGJ` (no dot at all). -/
def w10rec : FileRecord :=
  ⟨6, [], [73, 77, 71, 74], [], [], [], 0, 0, 0, 0, 0, 0, 0, 0, 0, 0, 0, []⟩

/-- The 2-byte big-endian length-prefix encoding of a byte string, from the
spec's round-trip property (the encoding side does not occur in the source). -/
def encodeString (s : List Nat) : List Nat := toBytesBE 2 s.length ++ s

/-! ## Decoder lemmas -/

theorem getintAux_offset {data : List Nat} :
    ∀ {n v off val off2}, getintAux data v off n = some (val, off2) → off2 = off + n := by
  intro n
  induction n with
  | zero =>
    intro v off val off2 h
    simp only [getintAux, Option.some.injEq, Prod.mk.injEq] at h
    omega
  | succ k ih =>
    intro v off val off2 h
    unfold getintAux at h
    cases hb : data[off]? with
    | none => rw [hb] at h; exact absurd h (by simp)
    | some b =>
      rw [hb] at h
      have := ih h
      omega

theorem getint_offset {data : List Nat} {n off val off2}
    (h : getint data off n = some (val, off2)) : off2 = off + n :=
  getintAux_offset h

theorem getintAux_isNone {data : List Nat} :
    ∀ {n v off}, 0 < n → ((getintAux data v off n).isNone = true ↔ data.length < off + n) := by
  intro n
  induction n with
  | zero => intro v off h0; omega
  | succ k ih =>
    intro v off _
    unfold getintAux
    cases hb : data[off]? with
    | none =>
      have hlen : data.length ≤ off := List.getElem?_eq_none_iff.mp hb
      simp only [Option.isNone_none]
      constructor
      · intro _; omega
      · intro _; trivial
    | some b =>
      obtain ⟨hlen, -⟩ := List.getElem?_eq_some_iff.mp hb
      cases k with
      | zero =>
        simp only [getintAux, Option.isNone_some]
        constructor
        · intro h2; exact absurd h2 (by simp)
        · intro h2; omega
      | succ j =>
        rw [ih (by omega)]
        omega

theorem getint_isNone {data : List Nat} {off n : Nat} (hn : 0 < n) :
    (getint data off n).isNone = true ↔ data.length < off + n :=
  getintAux_isNone hn


theorem getstring_isNone {data : List Nat} {off : Nat} :
    (getstring data off).isNone = true ↔ data.length < off + 2 := by
  unfold getstring
  cases h0 : data[off]? with
  | none =>
    have hlen : data.length ≤ off := List.getElem?_eq_none_iff.mp h0
    constructor
    · intro _; omega
    · intro _; trivial
  | some b0 =>
    obtain ⟨hl0, -⟩ := List.getElem?_eq_some_iff.mp h0
    cases h1 : data[off + 1]? with
    | none =>
      have hlen : data.length ≤ off + 1 := List.getElem?_eq_none_iff.mp h1
      constructor
      · intro _; omega
      · intro _; trivial
    | some b1 =>
      obtain ⟨hl1, -⟩ := List.getElem?_eq_some_iff.mp h1
      dsimp only
      split
      · simp only [Option.isNone_some]
        constructor
        · intro h2; exact absurd h2 (by simp)
        · intro h2; omega
      · cases hg : getint data off 2 with
        | none =>
          have h2 := (@getint_isNone data off 2 (by omega)).mp
            (by rw [hg]; rfl)
          omega
        | some vo =>
          obtain ⟨len, o2⟩ := vo
          simp only [Option.isNone_some]
          constructor
          · intro h2; exact absurd h2 (by simp)
          · intro h2; omega

/-- The non-sentinel success shape of `getstring`. -/
theorem getstring_content {data : List Nat} {off b0 b1 : Nat}
    (h0 : data[off]? = some b0) (h1 : data[off + 1]? = some b1)
    (hns : ¬(b0 = 255 ∧ b1 = 255)) :
    getstring data off =
      some ((data.drop (off + 2)).take (256 * b0 + b1), off + 2 + (256 * b0 + b1)) := by
  have hg : getint data off 2 = some (256 * b0 + b1, off + 2) := by
    unfold getint getintAux
    rw [h0]
    unfold getintAux
    rw [h1]
    unfold getintAux
    norm_num
    omega
  unfold getstring
  rw [h0, h1]
  dsimp only
  rw [if_neg hns, hg]

theorem getstring_le {data : List Nat} {off : Nat} {v : List Nat} {off2 : Nat}
    (h : getstring data off = some (v, off2)) : off + 2 ≤ off2 := by
  unfold getstring at h
  cases h0 : data[off]? with
  | none => rw [h0] at h; exact absurd h (by simp)
  | some b0 =>
    cases h1 : data[off + 1]? with
    | none => rw [h0, h1] at h; exact absurd h (by simp)
    | some b1 =>
      rw [h0, h1] at h
      dsimp only at h
      split at h
      · simp only [Option.some.injEq, Prod.mk.injEq] at h
        omega
      · cases hg : getint data off 2 with
        | none => rw [hg] at h; exact absurd h (by simp)
        | some vo =>
          obtain ⟨len, o2⟩ := vo
          rw [hg] at h
          have := getint_offset hg
          simp only [Option.some.injEq, Prod.mk.injEq] at h
          omega

/-! ## Manifest-reader lemmas -/

theorem parseProps_len {data : List Nat} :
    ∀ {n off ps off2}, parseProps data off n = some (ps, off2) → ps.length = n := by
  intro n
  induction n with
  | zero =>
    intro off ps off2 h
    simp only [parseProps, Option.some.injEq, Prod.mk.injEq] at h
    simp [h.1.symm]
  | succ k ih =>
    intro off ps off2 h
    unfold parseProps at h
    cases hn : getstring data off with
    | none => rw [hn] at h; exact absurd h (by simp)
    | some p1 =>
      obtain ⟨name, o1⟩ := p1
      rw [hn] at h
      dsimp only at h
      cases hv : getstring data o1 with
      | none => rw [hv] at h; exact absurd h (by simp)
      | some p2 =>
        obtain ⟨val, o2⟩ := p2
        rw [hv] at h
        dsimp only at h
        cases hr : parseProps data o2 k with
        | none => rw [hr] at h; exact absurd h (by simp)
        | some p3 =>
          obtain ⟨rest, o3⟩ := p3
          rw [hr] at h
          simp only [Option.some.injEq, Prod.mk.injEq] at h
          have := ih hr
          rw [h.1.symm]
          simp [this]

/-- Destructuring a successful `parseRecord`: the record remembers its own
start offset, and its property list comes from a `parseProps` run bounded by
the record's own `numprops` byte. -/
theorem parseRecord_props {data : List Nat} {off : Nat} {r : FileRecord} {off2 : Nat}
    (h : parseRecord data off = some (r, off2)) :
    r.start_offset = off ∧ ∃ o, parseProps data o r.numprops = some (r.rawProps, off2) := by
  unfold parseRecord at h
  repeat'
    first
    | exact Option.noConfusion h
    | split at h
  simp only [Option.some.injEq, Prod.mk.injEq] at h
  obtain ⟨hr, ho⟩ := h
  subst ho
  subst hr
  exact ⟨rfl, _, by assumption⟩

theorem parseLoopAux_final {data : List Nat} :
    ∀ {fuel off recs idx fin}, parseLoopAux data fuel off = some (recs, idx, fin) →
      data.length ≤ fin := by
  intro fuel
  induction fuel with
  | zero =>
    intro off recs idx fin h
    unfold parseLoopAux at h
    split at h
    · exact absurd h (by simp)
    · simp only [Option.some.injEq, Prod.mk.injEq] at h
      omega
  | succ k ih =>
    intro off recs idx fin h
    unfold parseLoopAux at h
    split at h
    · cases hr : parseRecord data off with
      | none => rw [hr] at h; exact absurd h (by simp)
      | some p =>
        obtain ⟨r, o2⟩ := p
        rw [hr] at h
        dsimp only at h
        cases hl : parseLoopAux data k o2 with
        | none => rw [hl] at h; exact absurd h (by simp)
        | some t =>
          obtain ⟨recs2, idx2, fin2⟩ := t
          rw [hl] at h
          simp only [Option.some.injEq, Prod.mk.injEq] at h
          have := ih hl
          omega
    · simp only [Option.some.injEq, Prod.mk.injEq] at h
      omega

theorem lookupIdx_cons_isSome {idx : List (Nat × String)} {k k2 : Nat} {v : String}
    (h : (lookupIdx idx k).isSome = true) :
    (lookupIdx ((k2, v) :: idx) k).isSome = true := by
  unfold lookupIdx
  split
  · rfl
  · exact h

theorem parseLoopAux_mem {data : List Nat} :
    ∀ {fuel off recs idx fin}, parseLoopAux data fuel off = some (recs, idx, fin) →
      ∀ r ∈ recs, (lookupIdx idx r.start_offset).isSome = true := by
  intro fuel
  induction fuel with
  | zero =>
    intro off recs idx fin h
    unfold parseLoopAux at h
    split at h
    · exact absurd h (by simp)
    · simp only [Option.some.injEq, Prod.mk.injEq] at h
      obtain ⟨h1, h2, h3⟩ := h
      subst h1
      intro r hr
      exact absurd hr (by simp)
  | succ k ih =>
    intro off recs idx fin h
    unfold parseLoopAux at h
    split at h
    · cases hrp : parseRecord data off with
      | none => rw [hrp] at h; exact absurd h (by simp)
      | some p =>
        obtain ⟨r0, o2⟩ := p
        rw [hrp] at h
        dsimp only at h
        cases hl : parseLoopAux data k o2 with
        | none => rw [hl] at h; exact absurd h (by simp)
        | some t =>
          obtain ⟨recs2, idx2, fin2⟩ := t
          rw [hl] at h
          simp only [Option.some.injEq, Prod.mk.injEq] at h
          obtain ⟨h1, h2, h3⟩ := h
          subst h1
          subst h2
          intro r hr
          rcases List.mem_cons.mp hr with h4 | h4
          · subst h4
            unfold lookupIdx
            rw [if_pos rfl]
            rfl
          · exact lookupIdx_cons_isSome (ih hl r h4)
    · simp only [Option.some.injEq, Prod.mk.injEq] at h
      obtain ⟨h1, h2, h3⟩ := h
      subst h1
      intro r hr
      exact absurd hr (by simp)

theorem process_mbdb_file_ok {data : List Nat} {pr : MbdbResult}
    (h : process_mbdb_file data = Except.ok pr) :
    data.take 4 = mbdbMagic ∧
      parseLoopAux data (data.length + 1) 6 = some (pr.records, pr.mbdx, pr.finalOffset) := by
  unfold process_mbdb_file at h
  split at h
  · refine ⟨by assumption, ?_⟩
    cases hl : parseLoopAux data (data.length + 1) 6 with
    | none => rw [hl] at h; exact absurd h (by simp)
    | some t =>
      obtain ⟨recs, idx, fin⟩ := t
      rw [hl] at h
      simp only [Except.ok.injEq] at h
      rw [h.symm]
  · exact absurd h (by simp)

/-! ## Orchestrator step lemmas -/

theorem runLoop_cons_ok {dateOf : Nat → String} {blobs : List String}
    {idx : List (Nat × String)} {st st2 : RunState} {r : FileRecord} {rs : List FileRecord}
    (h : processRecord dateOf blobs idx st r = Except.ok st2) :
    runLoop dateOf blobs idx st (r :: rs) = runLoop dateOf blobs idx st2 rs := by
  conv_lhs => rw [runLoop]
  rw [h]

theorem runLoop_cons_err {dateOf : Nat → String} {blobs : List String}
    {idx : List (Nat × String)} {st : RunState} {r : FileRecord} {rs : List FileRecord}
    {e : RunErr} (h : processRecord dateOf blobs idx st r = Except.error e) :
    runLoop dateOf blobs idx st (r :: rs) = Except.error e := by
  conv_lhs => rw [runLoop]
  rw [h]

theorem processRecord_nofid {dateOf : Nat → String} {blobs : List String}
    {idx : List (Nat × String)} {st : RunState} {r : FileRecord}
    (hfid : lookupIdx idx r.start_offset = none) :
    processRecord dateOf blobs idx st r =
      Except.ok { st with nofid := st.nofid ++ [r.start_offset] } := by
  unfold processRecord
  rw [hfid]

theorem processRecord_skip {dateOf : Nat → String} {blobs : List String}
    {idx : List (Nat × String)} {st : RunState} {r : FileRecord} {fid : String}
    (hfid : lookupIdx idx r.start_offset = some fid)
    (hm : extension r.filename ∉ mediaExtensions) :
    processRecord dateOf blobs idx st r = Except.ok st := by
  unfold processRecord
  rw [hfid]
  simp only [if_neg hm]

theorem processRecord_copy {dateOf : Nat → String} {blobs : List String}
    {idx : List (Nat × String)} {st : RunState} {r : FileRecord} {fid : String}
    (hfid : lookupIdx idx r.start_offset = some fid)
    (hm : extension r.filename ∈ mediaExtensions) (hb : fid ∈ blobs) :
    processRecord dateOf blobs idx st r =
      Except.ok
        { st with
          copies := st.copies ++ [⟨dateOf r.ctime,
            lookupCount (bumpDate st.seenDates (dateOf r.ctime)) (dateOf r.ctime),
            extension r.filename,
            dateOf r.ctime ++ "_" ++
              toString (lookupCount (bumpDate st.seenDates (dateOf r.ctime)) (dateOf r.ctime)) ++
              extension r.filename, fid⟩],
          recovered := st.recovered + 1,
          seenDates := bumpDate st.seenDates (dateOf r.ctime) } := by
  unfold processRecord
  rw [hfid]
  simp only [if_pos hm, if_pos hb]

theorem processRecord_missing {dateOf : Nat → String} {blobs : List String}
    {idx : List (Nat × String)} {st : RunState} {r : FileRecord} {fid : String}
    {fn : List Char} (hfid : lookupIdx idx r.start_offset = some fid)
    (hm : extension r.filename ∈ mediaExtensions) (hb : fid ∉ blobs)
    (hdec : decodeStrict r.filename = some fn) :
    processRecord dateOf blobs idx st r =
      Except.ok { st with missing := st.missing ++ [(fid, String.mk fn)],
                          seenDates := bumpDate st.seenDates (dateOf r.ctime) } := by
  unfold processRecord
  rw [hfid]
  simp only [if_pos hm, if_neg hb]
  rw [hdec]

theorem processRecord_decodeErr {dateOf : Nat → String} {blobs : List String}
    {idx : List (Nat × String)} {st : RunState} {r : FileRecord} {fid : String}
    (hfid : lookupIdx idx r.start_offset = some fid)
    (hm : extension r.filename ∈ mediaExtensions) (hb : fid ∉ blobs)
    (hdec : decodeStrict r.filename = none) :
    processRecord dateOf blobs idx st r = Except.error RunErr.unicodeError := by
  unfold processRecord
  rw [hfid]
  simp only [if_pos hm, if_neg hb]
  rw [hdec]


/-! ## Counter and suffix lemmas -/

theorem lookupCount_bump_self (sd : List (String × Nat)) (d : String) :
    lookupCount (bumpDate sd d) d = lookupCount sd d + 1 := by
  induction sd with
  | nil => simp [bumpDate, lookupCount]
  | cons p rest ih =>
    obtain ⟨k, v⟩ := p
    unfold bumpDate
    by_cases hk : k = d
    · subst hk
      simp [lookupCount]
    · rw [if_neg hk]
      unfold lookupCount
      rw [if_neg hk, if_neg hk]
      exact ih

theorem lookupCount_bump_other (sd : List (String × Nat)) (d d2 : String) (hne : d ≠ d2) :
    lookupCount (bumpDate sd d) d2 = lookupCount sd d2 := by
  induction sd with
  | nil => simp [bumpDate, lookupCount, hne]
  | cons p rest ih =>
    obtain ⟨k, v⟩ := p
    unfold bumpDate
    by_cases hk : k = d
    · subst hk
      rw [if_pos rfl]
      unfold lookupCount
      rw [if_neg hne, if_neg hne]
    · rw [if_neg hk]
      unfold lookupCount
      split
      · rfl
      · exact ih

theorem sfx_append (a b : List CopyEvent) (d : String) :
    sfx (a ++ b) d = sfx a d ++ sfx b d := by
  unfold sfx
  rw [List.filter_append, List.map_append]

theorem sfx_single_self (c : CopyEvent) (d : String) (h : c.date = d) :
    sfx [c] d = [c.seq] := by
  unfold sfx
  simp [List.filter, h]

theorem sfx_single_other (c : CopyEvent) (d : String) (h : c.date ≠ d) :
    sfx [c] d = [] := by
  unfold sfx
  rw [List.filter_cons]
  rw [show (c.date == d) = false from beq_eq_false_iff_ne.mpr h]
  simp


/-! ## Whole-traversal lemmas -/

theorem runLoop_nofid {dateOf : Nat → String} {blobs : List String}
    {idx : List (Nat × String)} :
    ∀ {todo : List FileRecord} {st res : RunState},
      (∀ r ∈ todo, (lookupIdx idx r.start_offset).isSome = true) →
      runLoop dateOf blobs idx st todo = Except.ok res → res.nofid = st.nofid := by
  intro todo
  induction todo with
  | nil =>
    intro st res hall h
    unfold runLoop at h
    simp only [Except.ok.injEq] at h
    rw [h.symm]
  | cons r rs ih =>
    intro st res hall h
    obtain ⟨fid, hfid⟩ := Option.isSome_iff_exists.mp (hall r (by simp))
    have hall2 : ∀ r2 ∈ rs, (lookupIdx idx r2.start_offset).isSome = true :=
      fun r2 hr2 => hall r2 (by simp [hr2])
    by_cases hm : extension r.filename ∈ mediaExtensions
    · by_cases hb : fid ∈ blobs
      · rw [runLoop_cons_ok (processRecord_copy hfid hm hb)] at h
        have h3 := ih hall2 h
        simpa using h3
      · cases hdec : decodeStrict r.filename with
        | none =>
          rw [runLoop_cons_err (processRecord_decodeErr hfid hm hb hdec)] at h
          exact absurd h (by simp)
        | some fn =>
          rw [runLoop_cons_ok (processRecord_missing hfid hm hb hdec)] at h
          have h3 := ih hall2 h
          simpa using h3
    · rw [runLoop_cons_ok (processRecord_skip hfid hm)] at h
      exact ih hall2 h

theorem runLoop_total {dateOf : Nat → String} {blobs : List String}
    {idx : List (Nat × String)} :
    ∀ {todo : List FileRecord} {st : RunState},
      (∀ r ∈ todo, (decodeStrict r.filename).isSome = true) →
      ∃ res, runLoop dateOf blobs idx st todo = Except.ok res := by
  intro todo
  induction todo with
  | nil => intro st _; exact ⟨st, rfl⟩
  | cons r rs ih =>
    intro st hall
    have hall2 : ∀ r2 ∈ rs, (decodeStrict r2.filename).isSome = true :=
      fun r2 hr2 => hall r2 (by simp [hr2])
    cases hfid : lookupIdx idx r.start_offset with
    | none =>
      rw [runLoop_cons_ok (processRecord_nofid hfid)]
      exact ih hall2
    | some fid =>
      by_cases hm : extension r.filename ∈ mediaExtensions
      · by_cases hb : fid ∈ blobs
        · rw [runLoop_cons_ok (processRecord_copy hfid hm hb)]
          exact ih hall2
        · obtain ⟨fn, hdec⟩ := Option.isSome_iff_exists.mp (hall r (by simp))
          rw [runLoop_cons_ok (processRecord_missing hfid hm hb hdec)]
          exact ih hall2
      · rw [runLoop_cons_ok (processRecord_skip hfid hm)]
        exact ih hall2

theorem processRecord_recovered {dateOf : Nat → String} {blobs : List String}
    {idx : List (Nat × String)} {st : RunState} {r : FileRecord} {st2 : RunState}
    (hpr : processRecord dateOf blobs idx st r = Except.ok st2)
    (hst : st.recovered = st.copies.length) : st2.recovered = st2.copies.length := by
  cases hfid : lookupIdx idx r.start_offset with
  | none =>
    rw [processRecord_nofid hfid] at hpr
    simp only [Except.ok.injEq] at hpr
    subst hpr
    simpa using hst
  | some fid =>
    by_cases hm : extension r.filename ∈ mediaExtensions
    · by_cases hb : fid ∈ blobs
      · rw [processRecord_copy hfid hm hb] at hpr
        simp only [Except.ok.injEq] at hpr
        subst hpr
        simp [hst]
      · cases hdec : decodeStrict r.filename with
        | none =>
          rw [processRecord_decodeErr hfid hm hb hdec] at hpr
          exact Except.noConfusion hpr
        | some fn =>
          rw [processRecord_missing hfid hm hb hdec] at hpr
          simp only [Except.ok.injEq] at hpr
          subst hpr
          simpa using hst
    · rw [processRecord_skip hfid hm] at hpr
      simp only [Except.ok.injEq] at hpr
      subst hpr
      exact hst

theorem runLoop_recovered {dateOf : Nat → String} {blobs : List String}
    {idx : List (Nat × String)} :
    ∀ {todo : List FileRecord} {st res : RunState},
      runLoop dateOf blobs idx st todo = Except.ok res →
      st.recovered = st.copies.length → res.recovered = res.copies.length := by
  intro todo
  induction todo with
  | nil =>
    intro st res h hst
    unfold runLoop at h
    simp only [Except.ok.injEq] at h
    rw [h.symm]
    exact hst
  | cons r rs ih =>
    intro st res h hst
    cases hpr : processRecord dateOf blobs idx st r with
    | error e =>
      rw [runLoop_cons_err hpr] at h
      exact absurd h (by simp)
    | ok st2 =>
      rw [runLoop_cons_ok hpr] at h
      exact ih h (processRecord_recovered hpr hst)

/-! ## Per-date counter accounting -/

theorem attToday_false_nofid {dateOf : Nat → String}
    {idx : List (Nat × String)} {d : String} {r : FileRecord}
    (hfid : lookupIdx idx r.start_offset = none) :
    decide (attToday dateOf idx d r) = false := by
  simp [attToday, hfid]

theorem attToday_false_skip {dateOf : Nat → String}
    {idx : List (Nat × String)} {d : String} {r : FileRecord}
    (hm : extension r.filename ∉ mediaExtensions) :
    decide (attToday dateOf idx d r) = false := by
  simp [attToday, hm]

theorem attToday_false_date {dateOf : Nat → String}
    {idx : List (Nat × String)} {d : String} {r : FileRecord}
    (hd : dateOf r.ctime ≠ d) :
    decide (attToday dateOf idx d r) = false := by
  simp [attToday, hd]

theorem attToday_true {dateOf : Nat → String} {fid : String}
    {idx : List (Nat × String)} {d : String} {r : FileRecord}
    (hfid : lookupIdx idx r.start_offset = some fid)
    (hm : extension r.filename ∈ mediaExtensions)
    (hd : dateOf r.ctime = d) :
    decide (attToday dateOf idx d r) = true := by
  simp [attToday, hfid, hm, hd]

theorem runLoop_counts {dateOf : Nat → String} {blobs : List String}
    {idx : List (Nat × String)} :
    ∀ {todo : List FileRecord} {st res : RunState},
      runLoop dateOf blobs idx st todo = Except.ok res →
      ∀ d, lookupCount res.seenDates d =
        lookupCount st.seenDates d + attemptsOn dateOf idx todo d := by
  intro todo
  induction todo with
  | nil =>
    intro st res h d
    unfold runLoop at h
    simp only [Except.ok.injEq] at h
    rw [h.symm]
    simp [attemptsOn]
  | cons r rs ih =>
    intro st res h d
    unfold attemptsOn
    rw [List.countP_cons]
    cases hfid : lookupIdx idx r.start_offset with
    | none =>
      rw [runLoop_cons_ok (processRecord_nofid hfid)] at h
      have h2 := ih h d
      rw [attToday_false_nofid hfid]
      simp only at h2
      unfold attemptsOn at h2
      simp [h2]
    | some fid =>
      by_cases hm : extension r.filename ∈ mediaExtensions
      · have hstep : ∀ st2 : RunState, st2.seenDates = bumpDate st.seenDates (dateOf r.ctime) →
            runLoop dateOf blobs idx st2 rs = Except.ok res →
            lookupCount res.seenDates d =
              lookupCount st.seenDates d + (attemptsOn dateOf idx rs d +
                if decide (attToday dateOf idx d r) = true then 1 else 0) := by
          intro st2 hsd h2
          have h3 := ih h2 d
          unfold attemptsOn at h3
          rw [hsd] at h3
          unfold attemptsOn
          by_cases hd : dateOf r.ctime = d
          · rw [hd] at h3
            rw [lookupCount_bump_self] at h3
            rw [attToday_true hfid hm hd]
            simp only [if_pos]
            omega
          · rw [lookupCount_bump_other _ _ _ hd] at h3
            rw [attToday_false_date hd]
            simp only [Bool.false_eq_true, if_false]
            omega
        by_cases hb : fid ∈ blobs
        · rw [runLoop_cons_ok (processRecord_copy hfid hm hb)] at h
          have h4 := hstep _ rfl h
          simpa using h4
        · cases hdec : decodeStrict r.filename with
          | none =>
            rw [runLoop_cons_err (processRecord_decodeErr hfid hm hb hdec)] at h
            exact absurd h (by simp)
          | some fn =>
            rw [runLoop_cons_ok (processRecord_missing hfid hm hb hdec)] at h
            have h4 := hstep _ rfl h
            simpa using h4
      · rw [runLoop_cons_ok (processRecord_skip hfid hm)] at h
        have h2 := ih h d
        rw [attToday_false_skip hm]
        unfold attemptsOn at h2
        simp [h2]


/-- The per-date destination suffixes produced by one traversal: relative to
the starting state, the suffixes added for date `d` are strictly increasing
within the window between the starting and final counter values, and when
every resolvable record's blob is present they are exactly the consecutive
range continuing the counter. -/
theorem runLoop_suffixes {dateOf : Nat → String} {blobs : List String}
    {idx : List (Nat × String)} :
    ∀ {todo : List FileRecord} {st res : RunState},
      runLoop dateOf blobs idx st todo = Except.ok res →
      ∀ d, ∃ ns, sfx res.copies d = sfx st.copies d ++ ns ∧
        (∀ x ∈ ns, lookupCount st.seenDates d < x ∧ x ≤ lookupCount res.seenDates d) ∧
        ns.Pairwise (· < ·) ∧
        ((∀ r2 ∈ todo, ∀ s, lookupIdx idx r2.start_offset = some s →
            extension r2.filename ∈ mediaExtensions → s ∈ blobs) →
          ns = List.range' (lookupCount st.seenDates d + 1) (attemptsOn dateOf idx todo d)) := by
  intro todo
  induction todo with
  | nil =>
    intro st res h d
    unfold runLoop at h
    simp only [Except.ok.injEq] at h
    subst h
    refine ⟨[], by simp, by simp, by simp, ?_⟩
    intro _
    simp [attemptsOn]
  | cons r rs ih =>
    intro st res h d
    cases hfid : lookupIdx idx r.start_offset with
    | none =>
      rw [runLoop_cons_ok (processRecord_nofid hfid)] at h
      obtain ⟨ns, hs, hbnd, hpw, hrg⟩ := ih h d
      simp only at hs hbnd
      refine ⟨ns, hs, hbnd, hpw, ?_⟩
      intro hall
      have h5 := hrg (fun r2 hr2 => hall r2 (by simp [hr2]))
      rw [h5]
      unfold attemptsOn
      rw [List.countP_cons, attToday_false_nofid hfid]
      simp
    | some fid =>
      by_cases hm : extension r.filename ∈ mediaExtensions
      · by_cases hb : fid ∈ blobs
        · -- successful copy: one new suffix for the record's date
          rw [runLoop_cons_ok (processRecord_copy hfid hm hb)] at h
          obtain ⟨ns, hs, hbnd, hpw, hrg⟩ := ih h d
          have hcnt := runLoop_counts h d
          simp only at hs hbnd hcnt
          by_cases hd : dateOf r.ctime = d
          · -- the new copy lands on date d with suffix lookupCount st d + 1
            have hn0 : lookupCount (bumpDate st.seenDates (dateOf r.ctime)) (dateOf r.ctime) =
                lookupCount st.seenDates (dateOf r.ctime) + 1 := lookupCount_bump_self _ _
            have hsfx1 : sfx (st.copies ++ [⟨dateOf r.ctime,
                lookupCount (bumpDate st.seenDates (dateOf r.ctime)) (dateOf r.ctime),
                extension r.filename,
                dateOf r.ctime ++ "_" ++
                  toString (lookupCount (bumpDate st.seenDates (dateOf r.ctime))
                    (dateOf r.ctime)) ++ extension r.filename, fid⟩]) d =
                sfx st.copies d ++ [lookupCount st.seenDates d + 1] := by
              rw [sfx_append, sfx_single_self _ _ (by simpa using hd)]
              simp [hd, lookupCount_bump_self]
            rw [hsfx1] at hs
            rw [List.append_assoc] at hs
            have hbump : lookupCount (bumpDate st.seenDates (dateOf r.ctime)) d =
                lookupCount st.seenDates d + 1 := by
              rw [hd]
              exact lookupCount_bump_self _ _
            refine ⟨(lookupCount st.seenDates d + 1) :: ns, hs, ?_, ?_, ?_⟩
            · intro x hx
              rcases List.mem_cons.mp hx with h6 | h6
              · subst h6
                constructor
                · omega
                · rw [hbump] at hcnt
                  omega
              · have h7 := hbnd x h6
                rw [hbump] at h7
                omega
            · rw [List.pairwise_cons]
              refine ⟨?_, hpw⟩
              intro x hx
              have h7 := hbnd x hx
              rw [hbump] at h7
              omega
            · intro hall
              have h5 := hrg (fun r2 hr2 => hall r2 (by simp [hr2]))
              rw [hbump] at h5
              unfold attemptsOn at h5
              unfold attemptsOn
              rw [List.countP_cons, attToday_true hfid hm hd]
              simp only [if_pos]
              rw [List.range'_succ, h5]
          · -- the new copy is for a different date: suffixes for d unchanged
            have hsfx1 : sfx (st.copies ++ [⟨dateOf r.ctime,
                lookupCount (bumpDate st.seenDates (dateOf r.ctime)) (dateOf r.ctime),
                extension r.filename,
                dateOf r.ctime ++ "_" ++
                  toString (lookupCount (bumpDate st.seenDates (dateOf r.ctime))
                    (dateOf r.ctime)) ++ extension r.filename, fid⟩]) d =
                sfx st.copies d := by
              rw [sfx_append, sfx_single_other _ _ (by simpa using hd)]
              simp
            rw [hsfx1] at hs
            have hbump : lookupCount (bumpDate st.seenDates (dateOf r.ctime)) d =
                lookupCount st.seenDates d := lookupCount_bump_other _ _ _ hd
            rw [hbump] at hbnd
            refine ⟨ns, hs, hbnd, hpw, ?_⟩
            intro hall
            have h5 := hrg (fun r2 hr2 => hall r2 (by simp [hr2]))
            rw [hbump] at h5
            rw [h5]
            unfold attemptsOn
            rw [List.countP_cons, attToday_false_date hd]
            simp
        · cases hdec : decodeStrict r.filename with
          | none =>
            rw [runLoop_cons_err (processRecord_decodeErr hfid hm hb hdec)] at h
            exact absurd h (by simp)
          | some fn =>
            -- missing blob: counter bumps, no copy
            rw [runLoop_cons_ok (processRecord_missing hfid hm hb hdec)] at h
            obtain ⟨ns, hs, hbnd, hpw, hrg⟩ := ih h d
            simp only at hs hbnd
            by_cases hd : dateOf r.ctime = d
            · have hbump : lookupCount (bumpDate st.seenDates (dateOf r.ctime)) d =
                  lookupCount st.seenDates d + 1 := by
                rw [hd]
                exact lookupCount_bump_self _ _
              rw [hbump] at hbnd
              refine ⟨ns, hs, ?_, hpw, ?_⟩
              · intro x hx
                have h7 := hbnd x hx
                omega
              · intro hall
                exact absurd (hall r (by simp) fid hfid hm) hb
            · have hbump : lookupCount (bumpDate st.seenDates (dateOf r.ctime)) d =
                  lookupCount st.seenDates d := lookupCount_bump_other _ _ _ hd
              rw [hbump] at hbnd
              refine ⟨ns, hs, hbnd, hpw, ?_⟩
              intro hall
              exact absurd (hall r (by simp) fid hfid hm) hb
      · rw [runLoop_cons_ok (processRecord_skip hfid hm)] at h
        obtain ⟨ns, hs, hbnd, hpw, hrg⟩ := ih h d
        refine ⟨ns, hs, hbnd, hpw, ?_⟩
        intro hall
        have h5 := hrg (fun r2 hr2 => hall r2 (by simp [hr2]))
        rw [h5]
        unfold attemptsOn
        rw [List.countP_cons, attToday_false_skip hm]
        simp

/-! ## Extension-classifier lemmas -/

theorem pyRfindDot_append_some (xs ys : List Char) (i : Nat) (h : pyRfindDot ys = some i) :
    pyRfindDot (xs ++ ys) = some (xs.length + i) := by
  induction xs with
  | nil => simpa using h
  | cons c rest ih =>
    rw [List.cons_append]
    have hstep : pyRfindDot (c :: (rest ++ ys)) =
        match pyRfindDot (rest ++ ys) with
        | some j => some (j + 1)
        | none => if c = '.' then some 0 else none := rfl
    rw [hstep, ih]
    simp only [Option.some.injEq, List.length_cons]
    omega

theorem pyRfindDot_none {s : List Char} (h : '.' ∉ s) : pyRfindDot s = none := by
  induction s with
  | nil => rfl
  | cons c rest ih =>
    have hstep : pyRfindDot (c :: rest) =
        match pyRfindDot rest with
        | some j => some (j + 1)
        | none => if c = '.' then some 0 else none := rfl
    rw [hstep, ih (fun hc => h (List.mem_cons.mpr (Or.inr hc)))]
    exact if_neg (fun hc => h (List.mem_cons.mpr (Or.inl hc.symm)))

/-- When the last dot of the whole name begins `tail`, the extension is
`tail` lowercased, whatever comes before. -/
theorem pyExt_suffix (base tail : List Char) (h : pyRfindDot tail = some 0) :
    pyExt (base ++ tail) = tail.map toLowerAscii := by
  unfold pyExt
  rw [pyRfindDot_append_some base tail 0 h]
  simp only [Nat.add_zero]
  rw [List.drop_left]

theorem pyExt_no_dot {s : List Char} (h : '.' ∉ s) :
    pyExt s = (s.drop (s.length - 1)).map toLowerAscii := by
  unfold pyExt
  rw [pyRfindDot_none h]

theorem pyExt_no_dot_len {s : List Char} (h : '.' ∉ s) : (pyExt s).length ≤ 1 := by
  rw [pyExt_no_dot h]
  rw [List.length_map, List.length_drop]
  omega

theorem short_not_media (e : String) (hlen : e.length ≤ 1) : e ∉ mediaExtensions := by
  intro hmem
  unfold mediaExtensions at hmem
  simp only [List.mem_cons, List.not_mem_nil, or_false] at hmem
  have h4 : 4 ≤ e.length := by
    rcases hmem with h | h | h | h | h | h | h | h | h <;> (rw [h]; decide)
  omega

/-! ## Property-dictionary lemmas -/

theorem dictInsert_fresh (m : List (String × String)) (k v : String)
    (hk : k ∉ m.map Prod.fst) : dictInsert m k v = m ++ [(k, v)] := by
  induction m with
  | nil => rfl
  | cons p rest ih =>
    obtain ⟨k2, v2⟩ := p
    simp only [List.map_cons, List.mem_cons] at hk
    push_neg at hk
    unfold dictInsert
    rw [if_neg (Ne.symm hk.1)]
    rw [ih hk.2]
    rfl

theorem foldl_dictInsert (ps : List (String × String)) :
    ∀ acc : List (String × String), ((acc ++ ps).map Prod.fst).Nodup →
      ps.foldl (fun m p => dictInsert m p.1 p.2) acc = acc ++ ps := by
  induction ps with
  | nil => intro acc _; simp
  | cons p rest ih =>
    intro acc hnd
    rw [List.foldl_cons]
    have hk : p.1 ∉ acc.map Prod.fst := by
      rw [List.map_append] at hnd
      have hdisj := (List.nodup_append.mp hnd).2.2
      intro hmem
      exact hdisj hmem (by simp)
    rw [dictInsert_fresh acc p.1 p.2 hk]
    have hnd2 : (((acc ++ [(p.1, p.2)]) ++ rest).map Prod.fst).Nodup := by
      have : (acc ++ [(p.1, p.2)]) ++ rest = acc ++ p :: rest := by simp
      rw [this]
      exact hnd
    rw [ih (acc ++ [(p.1, p.2)]) hnd2]
    simp

/-! ## Round-trip lemmas for `getstring` -/

theorem getstring_sentinel {data : List Nat} {off : Nat}
    (h0 : data[off]? = some 255) (h1 : data[off + 1]? = some 255) :
    getstring data off = some ([], off + 2) := by
  unfold getstring
  rw [h0, h1]
  dsimp only
  rw [if_pos ⟨rfl, rfl⟩]

theorem toBytesBE_two (n : Nat) : toBytesBE 2 n = [n / 256 % 256, n % 256] := rfl

theorem getstring_encode {s : List Nat} (hs : s.length < 65535) :
    getstring (encodeString s) 0 = some (s, 2 + s.length) := by
  have hb0 : s.length / 256 < 256 := by omega
  have henc : encodeString s = s.length / 256 :: s.length % 256 :: s := by
    unfold encodeString
    rw [toBytesBE_two, Nat.mod_eq_of_lt hb0]
    rfl
  rw [henc]
  have hns : ¬(s.length / 256 = 255 ∧ s.length % 256 = 255) := by
    intro ⟨ha, hb⟩
    omega
  have h0 : (s.length / 256 :: s.length % 256 :: s)[0]? = some (s.length / 256) := rfl
  have h1 : (s.length / 256 :: s.length % 256 :: s)[0 + 1]? = some (s.length % 256) := by simp
  have hc := getstring_content h0 h1 hns
  rw [hc]
  have harith : 256 * (s.length / 256) + s.length % 256 = s.length := by omega
  rw [harith]
  simp [List.take_length]

/-! ## Claims -/

/-- Claim C1 (code bug): the spec requires
`storage_id = sha1-hex of the raw bytes domain ++ 2D ++ filename` with no
lossy text decoding before hashing, for all byte strings.  The source
instead decodes the concatenation with `decode("utf-8", "replace")` and
re-encodes it before hashing (line 67-68).  At domain `b\xff`, filename
`b` (empty), the code hashes `EF BF BD 2D` (the re-encoded replacement
character plus the dash) while the spec digest is over `FF 2D`; the two
hex digests differ, so derived storage ids are wrong for any path that is
not valid UTF-8. -/
theorem C1_storage_id_divergence :
    fileID [255] [] = sha1Hex [239, 191, 189, 45] ∧
    specStorageId [255] [] = sha1Hex [255, 45] ∧
    fileID [255] [] ≠ specStorageId [255] [] := by decide

/-- Claim C2 (counterexample): a 62-byte manifest whose final property
value declares length 5 (prefix bytes at offsets 58, 59) with only 2 bytes
remaining parses successfully: the value is silently truncated to `[9, 9]`
and the final cursor is 65, past the buffer end — the claim's required
OutOfBounds failure and exact end-of-buffer alignment both fail. -/
theorem C2_counterexample :
    (process_mbdb_file C2buf).map
        (fun pr => (pr.finalOffset, pr.records.map (fun r => r.rawProps))) =
      Except.ok (65, [[([], [9, 9])]]) ∧
    C2buf.length = 62 ∧ C2buf[58]? = some 0 ∧ C2buf[59]? = some 5 := by decide

/-- Claim C2 (amended): a fixed-width integer read or the two-byte
sentinel peek past the buffer end fails (the IndexError); but a declared
string length exceeding the remaining bytes is silently truncated to the
bytes available, not an error, and a successful parse ends with the
cursor at or past — not exactly at — the buffer's end. -/
theorem C2_bounds_amended (data : List Nat) (off n : Nat) :
    (0 < n → ((getint data off n).isNone = true ↔ data.length < off + n)) ∧
    ((getstring data off).isNone = true ↔ data.length < off + 2) ∧
    (∀ b0 b1, data[off]? = some b0 → data[off + 1]? = some b1 →
      ¬(b0 = 255 ∧ b1 = 255) →
      getstring data off =
        some ((data.drop (off + 2)).take (256 * b0 + b1), off + 2 + (256 * b0 + b1)) ∧
      ((data.drop (off + 2)).take (256 * b0 + b1)).length =
        min (256 * b0 + b1) (data.length - (off + 2))) ∧
    (∀ pr, process_mbdb_file data = Except.ok pr → data.length ≤ pr.finalOffset) := by
  refine ⟨fun hn => getint_isNone hn, getstring_isNone, ?_, ?_⟩
  · intro b0 b1 h0 h1 hns
    refine ⟨getstring_content h0 h1 hns, ?_⟩
    rw [List.length_take, List.length_drop]
  · intro pr hpr
    exact parseLoopAux_final (process_mbdb_file_ok hpr).2

theorem C2_bounds_amended_witness :
    (getint [1, 2, 3] 0 2).isNone = false ∧
    getstring [1, 2, 3] 0 = some ([3], 260) ∧
    w1data.length ≤ w1pr.finalOffset := by
  have h := C2_bounds_amended [1, 2, 3] 0 2
  refine ⟨?_, ?_, ?_⟩
  · cases hg : (getint [1, 2, 3] 0 2).isNone with
    | false => rfl
    | true => exact absurd ((h.1 (by omega)).mp hg) (by decide)
  · have h3 := (h.2.2.1 1 2 (by decide) (by decide) (by decide)).1
    rw [h3]
    decide
  · exact (C2_bounds_amended w1data 0 1).2.2.2 w1pr (by decide)

/-- Claim C3 (counterexample): a record declaring two property pairs that
share the name `a` (values `1` then `2`) parses with `numprops = 2` but
its properties dictionary holds a single entry whose value is the later
`2`: the earlier pair is overwritten, not kept. -/
theorem C3_counterexample :
    (process_mbdb_file C3buf).map
        (fun pr => pr.records.map (fun r => (r.numprops, properties r))) =
      Except.ok [(2, [("a", "2")])] := by decide

/-- Claim C3 (amended): parsing consumes exactly `numprops` name/value
pairs per record; the pairs are stored through a unique-key, insertion-
ordered dictionary assignment in which a later duplicate (decoded) name
overwrites the earlier value in place, so all pairs survive in insertion
order only when the decoded names are pairwise distinct. -/
theorem C3_props_amended (data : List Nat) (off : Nat) (r : FileRecord) (off2 : Nat)
    (h : parseRecord data off = some (r, off2)) :
    r.rawProps.length = r.numprops ∧
    (((decodedProps r).map Prod.fst).Nodup → properties r = decodedProps r) := by
  obtain ⟨-, o, hp⟩ := parseRecord_props h
  refine ⟨parseProps_len hp, ?_⟩
  intro hnd
  have h2 := foldl_dictInsert (decodedProps r) [] (by simpa using hnd)
  unfold properties
  simpa using h2

theorem C3_props_amended_witness :
    C3wrec.rawProps.length = C3wrec.numprops ∧ properties C3wrec = [("a", "b")] := by
  have h := C3_props_amended C3wbuf 6 C3wrec 62 (by decide)
  refine ⟨h.1, ?_⟩
  have h2 := h.2 (by decide)
  rw [h2]
  decide

/-- Claim C4 (counterexample): two records share the constant rendered
date `D`; the first (filename `x.jpg`) has no blob, the second
(`y.jpg`) does.  Exactly one record is recovered for date `D`, yet its
destination suffix is 2, not 1: the counter advanced on the failed
attempt, so the suffixes of recovered files are not `1..N`. -/
theorem C4_counterexample :
    (main cD [fileID [] yjpg] C4buf).map
        (fun st => (st.recovered, st.copies.map (fun c => (c.date, c.seq, c.dest)))) =
      Except.ok (1, [("D", 2, "D_2.jpg")]) := by decide

/-- Claim C4 (amended): the per-date counter increments once per record
attempted (media-classified and id-resolved), not once per record
recovered; recovered suffixes for a date are strictly increasing (hence
collision-free) and bounded by the attempt count, and they are exactly
`1..N` precisely when every attempted record's blob is present — missed
blobs leave gaps. -/
theorem C4_per_date_numbering (dateOf : Nat → String) (blobs : List String)
    (data : List Nat) (pr : MbdbResult) (res : RunState)
    (hp : process_mbdb_file data = Except.ok pr)
    (hr : main dateOf blobs data = Except.ok res) :
    (∀ d, lookupCount res.seenDates d = attemptsOn dateOf pr.mbdx pr.records d) ∧
    (∀ d, (sfx res.copies d).Pairwise (· < ·)) ∧
    (∀ c ∈ res.copies, 1 ≤ c.seq ∧ c.seq ≤ attemptsOn dateOf pr.mbdx pr.records c.date) ∧
    ((∀ r2 ∈ pr.records, ∀ s, lookupIdx pr.mbdx r2.start_offset = some s →
        extension r2.filename ∈ mediaExtensions → s ∈ blobs) →
      ∀ d, sfx res.copies d = List.range' 1 (attemptsOn dateOf pr.mbdx pr.records d)) := by
  have hrl : runLoop dateOf blobs pr.mbdx ⟨[], [], [], 0, []⟩ pr.records = Except.ok res := by
    unfold main at hr
    rw [hp] at hr
    exact hr
  have hcnt := runLoop_counts hrl
  have hsfx := runLoop_suffixes hrl
  have hcnt0 : ∀ d, lookupCount res.seenDates d = attemptsOn dateOf pr.mbdx pr.records d := by
    intro d
    have := hcnt d
    simpa [lookupCount] using this
  refine ⟨hcnt0, ?_, ?_, ?_⟩
  · intro d
    obtain ⟨ns, hs, hbnd, hpw, -⟩ := hsfx d
    have hs0 : sfx res.copies d = ns := by simpa [sfx] using hs
    rw [hs0]
    exact hpw
  · intro c hc
    obtain ⟨ns, hs, hbnd, -, -⟩ := hsfx c.date
    have hs0 : sfx res.copies c.date = ns := by simpa [sfx] using hs
    have hmem : c.seq ∈ sfx res.copies c.date := by
      unfold sfx
      exact List.mem_map_of_mem _ (List.mem_filter.mpr ⟨hc, by simp⟩)
    rw [hs0] at hmem
    have hb := hbnd c.seq hmem
    have := hcnt0 c.date
    simp only [lookupCount] at hb
    omega
  · intro hall d
    obtain ⟨ns, hs, -, -, hrg⟩ := hsfx d
    have hs0 : sfx res.copies d = ns := by simpa [sfx] using hs
    rw [hs0, hrg hall]
    simp [lookupCount]

theorem C4_per_date_numbering_witness :
    sfx w1res.copies "D" = [1] ∧ lookupCount w1res.seenDates "D" = 1 := by
  have h := C4_per_date_numbering cD [fileID [] w1fn] w1data w1pr w1res
    (by decide) (by decide)
  have hall : ∀ r2 ∈ w1pr.records, ∀ s,
      lookupIdx w1pr.mbdx r2.start_offset = some s →
      extension r2.filename ∈ mediaExtensions → s ∈ [fileID [] w1fn] := by
    intro r2 hr2 s hs _
    have hr2e : r2 = w1rec := by
      have hrecs : w1pr.records = [w1rec] := rfl
      rw [hrecs] at hr2
      simpa using hr2
    subst hr2e
    have heq : lookupIdx w1pr.mbdx w1rec.start_offset = some (fileID [] w1fn) := rfl
    rw [heq] at hs
    simp only [Option.some.injEq] at hs
    simp [hs.symm]
  constructor
  · have h4 := h.2.2.2 hall "D"
    rw [h4]
    decide
  · rw [h.1 "D"]
    decide


/-- Claim C5 (counterexample): for the byte string of length 65535, the
2-byte big-endian length prefix is `FF FF`, which `getstring` reads as the
blank-string sentinel: decoding the encoding returns the empty byte string
with the cursor at 2, not the original string — the round-trip half of the
claim fails at this length. -/
theorem C5_counterexample :
    getstring (encodeString (List.replicate 65535 0)) 0 = some ([], 2) ∧
    List.replicate 65535 0 ≠ [] := by
  have key : ∀ l : List Nat, l.length = 65535 →
      getstring (encodeString l) 0 = some ([], 2) ∧ l ≠ [] := by
    intro l hl
    constructor
    · have henc : encodeString l = 255 :: 255 :: l := by
        unfold encodeString
        rw [hl]
        rfl
      rw [henc]
      exact getstring_sentinel rfl (by simp)
    · intro hnil
      rw [hnil] at hl
      simp at hl
  exact key _ (List.length_replicate 65535 0)

/-- Claim C5 (amended): the sentinel half holds as stated: two `0xFF`
bytes decode to the empty byte string, consuming exactly those two bytes;
the round-trip half holds for every byte string shorter than 65535 bytes
(whose length prefix therefore is not the `FF FF` sentinel). -/
theorem C5_read_string (data s : List Nat) (off : Nat)
    (h0 : data[off]? = some 255) (h1 : data[off + 1]? = some 255)
    (hs : s.length < 65535) :
    getstring data off = some ([], off + 2) ∧
    getstring (encodeString s) 0 = some (s, 2 + s.length) :=
  ⟨getstring_sentinel h0 h1, getstring_encode hs⟩

theorem C5_read_string_witness :
    getstring [255, 255, 7] 0 = some ([], 2) ∧
    getstring (encodeString [10, 20, 30]) 0 = some ([10, 20, 30], 5) := by
  have h := C5_read_string [255, 255, 7] [10, 20, 30] 0 (by decide) (by decide) (by decide)
  exact ⟨h.1, h.2⟩

/-- Claim C6 (counterexample): a record whose filename bytes `FF 2E 6A 70
67` (`\xff.jpg`) have a media extension but are not valid UTF-8, with its
blob absent, does not produce the claimed diagnostic-and-skip: formatting
the diagnostic strictly decodes the filename (line 144), which raises, and
the whole run aborts with no recovered-count report. -/
theorem C6_counterexample :
    main cD [] C6buf = Except.error RunErr.unicodeError := by decide

/-- Claim C6 (amended): for a record with a missing storage blob whose
filename is valid UTF-8, the orchestrator records the diagnostic naming
the storage id and the decoded filename, leaves the copies and the
recovered count unchanged, and continues; and when every parsed record's
filename is strictly decodable the run terminates successfully with the
recovered count equal to the number of copies performed (possibly zero).
A missing-blob record whose filename is not valid UTF-8 instead aborts
the run (see the counterexample). -/
theorem C6_missing_blob (dateOf : Nat → String) (blobs : List String)
    (idx : List (Nat × String)) (st : RunState) (r : FileRecord) (fid : String)
    (fn : List Char) (data : List Nat) (pr : MbdbResult)
    (hfid : lookupIdx idx r.start_offset = some fid)
    (hm : extension r.filename ∈ mediaExtensions)
    (hb : fid ∉ blobs)
    (hdec : decodeStrict r.filename = some fn)
    (hp : process_mbdb_file data = Except.ok pr)
    (hall : ∀ r2 ∈ pr.records, (decodeStrict r2.filename).isSome = true) :
    processRecord dateOf blobs idx st r =
      Except.ok { st with missing := st.missing ++ [(fid, String.mk fn)],
                          seenDates := bumpDate st.seenDates (dateOf r.ctime) } ∧
    ∃ res, main dateOf blobs data = Except.ok res ∧
      res.recovered = res.copies.length := by
  refine ⟨processRecord_missing hfid hm hb hdec, ?_⟩
  obtain ⟨res, hres⟩ := @runLoop_total dateOf blobs pr.mbdx pr.records ⟨[], [], [], 0, []⟩ hall
  refine ⟨res, ?_, runLoop_recovered hres rfl⟩
  unfold main
  rw [hp]
  exact hres

theorem C6_missing_blob_witness :
    processRecord cD [] [(6, "f")] ⟨[], [], [], 0, []⟩ w1rec =
      Except.ok ⟨[], [("f", ".jpg")], [], 0, [("D", 1)]⟩ ∧
    ∃ res, main cD [] w0data = Except.ok res ∧
      res.recovered = res.copies.length := by
  have h := C6_missing_blob cD [] [(6, "f")] ⟨[], [], [], 0, []⟩ w1rec "f"
    ['.', 'j', 'p', 'g'] w0data ⟨[], [], 6⟩ (by decide) (by decide) (by simp)
    (by decide) (by decide) (by simp)
  refine ⟨?_, h.2⟩
  rw [h.1]
  decide

/-- Claim C7 (confirmed): a buffer whose first four bytes are not the
literal `mbdb` makes `process_mbdb_file` fail with the invalid-magic
error (before any record is decoded — the out-of-bounds error is the only
other parse outcome), and the run fails with that parse error before any
recovery state exists (the folder creation and traversal live in the
`Except.ok` continuation that is never reached). -/
theorem C7_invalid_magic (dateOf : Nat → String) (blobs : List String)
    (data : List Nat) (h : data.take 4 ≠ mbdbMagic) :
    process_mbdb_file data = Except.error ParseErr.invalidMagic ∧
    main dateOf blobs data = Except.error (RunErr.parseFail ParseErr.invalidMagic) := by
  have h1 : process_mbdb_file data = Except.error ParseErr.invalidMagic := by
    unfold process_mbdb_file
    rw [if_neg h]
  refine ⟨h1, ?_⟩
  unfold main
  rw [h1]

theorem C7_invalid_magic_witness :
    process_mbdb_file [120, 120, 120, 120] = Except.error ParseErr.invalidMagic ∧
    main cD [] [120, 120, 120, 120] =
      Except.error (RunErr.parseFail ParseErr.invalidMagic) :=
  C7_invalid_magic cD [] [120, 120, 120, 120] (by decide)

/-- Claim C8 (confirmed): classification is by case-insensitive membership
of the substring from the last dot (lowercased) in the fixed allow-list:
a filename ending `.JPG`, `.Jpg`, or `.jpg` always classifies as media
(whatever precedes the suffix), `.jpg` is in the list, and a record whose
extension is not in the list is passed over with the traversal state
unchanged — no copy, no diagnostic, no counter update. -/
theorem C8_extension_classification (base : List Char) (dateOf : Nat → String)
    (blobs : List String) (idx : List (Nat × String)) (st : RunState)
    (r : FileRecord) :
    (String.mk (pyExt (base ++ ['.', 'J', 'P', 'G'])) = ".jpg" ∧
     String.mk (pyExt (base ++ ['.', 'J', 'p', 'g'])) = ".jpg" ∧
     String.mk (pyExt (base ++ ['.', 'j', 'p', 'g'])) = ".jpg" ∧
     ".jpg" ∈ mediaExtensions) ∧
    (extension r.filename ∉ mediaExtensions →
      (lookupIdx idx r.start_offset).isSome = true →
      processRecord dateOf blobs idx st r = Except.ok st) := by
  constructor
  · refine ⟨?_, ?_, ?_, by decide⟩ <;>
      (rw [pyExt_suffix _ _ (by decide)]; decide)
  · intro hm hsome
    obtain ⟨fid, hfid⟩ := Option.isSome_iff_exists.mp hsome
    exact processRecord_skip hfid hm

theorem C8_extension_classification_witness :
    String.mk (pyExt (['x'] ++ ['.', 'J', 'P', 'G'])) = ".jpg" ∧
    processRecord cD [] [(6, "f")] ⟨[], [], [], 0, []⟩ w8rec =
      Except.ok ⟨[], [], [], 0, []⟩ := by
  have h := C8_extension_classification ['x'] cD [] [(6, "f")] ⟨[], [], [], 0, []⟩ w8rec
  exact ⟨h.1.1, h.2 (by decide) (by decide)⟩

/-- Claim C9 (confirmed, implicit): every record of a successful parse has
an entry in the identifier map built alongside it (line 69 runs
unconditionally each iteration), so the orchestrator's `No fileID found`
branch is unreachable: a successful run reports no such diagnostic. -/
theorem C9_identifier_total (data : List Nat) (dateOf : Nat → String)
    (blobs : List String) :
    (∀ pr, process_mbdb_file data = Except.ok pr →
      ∀ r ∈ pr.records, (lookupIdx pr.mbdx r.start_offset).isSome = true) ∧
    (∀ res, main dateOf blobs data = Except.ok res → res.nofid = []) := by
  constructor
  · intro pr hpr r hr
    exact parseLoopAux_mem (process_mbdb_file_ok hpr).2 r hr
  · intro res hres
    unfold main at hres
    cases hp : process_mbdb_file data with
    | error e =>
      rw [hp] at hres
      exact absurd hres (by simp)
    | ok pr =>
      rw [hp] at hres
      have hall : ∀ r ∈ pr.records, (lookupIdx pr.mbdx r.start_offset).isSome = true :=
        fun r hr => parseLoopAux_mem (process_mbdb_file_ok hp).2 r hr
      have h2 := runLoop_nofid hall hres
      simpa using h2

theorem C9_identifier_total_witness :
    (lookupIdx w1pr.mbdx w1rec.start_offset).isSome = true ∧ w1res.nofid = [] := by
  have h := C9_identifier_total w1data cD [fileID [] w1fn]
  exact ⟨h.1 w1pr (by decide) w1rec (by decide), h.2 w1res (by decide)⟩

/-- Claim C10 (confirmed, implicit): on a name with no dot, `rfind`
returns -1 and the Python slice `s[-1:]` keeps just the final character,
so `extension` returns that character lowercased (the empty string for an
empty name) rather than failing; such a one-character (or empty) string
can never equal an allow-list entry, all of which are at least four
characters long and begin with a dot, so a dot-free filename is never
classified as recoverable media and its record is passed over with the
state unchanged. -/
theorem C10_no_dot_extension (s init : List Char) (c : Char) (h : '.' ∉ s) :
    pyExt ([] : List Char) = [] ∧
    (s = init ++ [c] → pyExt s = [toLowerAscii c]) ∧
    String.mk (pyExt s) ∉ mediaExtensions ∧
    (∀ dateOf blobs idx (st : RunState) (r : FileRecord),
      decodeRepl r.filename = s →
      (lookupIdx idx r.start_offset).isSome = true →
      processRecord dateOf blobs idx st r = Except.ok st) := by
  have hnm : String.mk (pyExt s) ∉ mediaExtensions := by
    apply short_not_media
    have := pyExt_no_dot_len h
    simpa using this
  refine ⟨rfl, ?_, hnm, ?_⟩
  · intro hsc
    subst hsc
    rw [pyExt_no_dot h]
    have hl : (init ++ [c]).length - 1 = init.length := by simp
    rw [hl, List.drop_left]
    rfl
  · intro dateOf blobs idx st r hdecEq hsome
    obtain ⟨fid, hfid⟩ := Option.isSome_iff_exists.mp hsome
    apply processRecord_skip hfid
    unfold extension
    rw [hdecEq]
    exact hnm

theorem C10_no_dot_extension_witness :
    pyExt ['I', 'M', 'G', 'J'] = ['j'] ∧
    String.mk (pyExt ['I', 'M', 'G', 'J']) ∉ mediaExtensions ∧
    processRecord cD [] [(6, "f")] ⟨[], [], [], 0, []⟩ w10rec =
      Except.ok ⟨[], [], [], 0, []⟩ := by
  have h := C10_no_dot_extension ['I', 'M', 'G', 'J'] ['I', 'M', 'G'] 'J' (by decide)
  exact ⟨h.2.1 rfl, h.2.2.1,
    h.2.2.2 cD [] [(6, "f")] ⟨[], [], [], 0, []⟩ w10rec (by decide) (by decide)⟩

theorem parseProps_mono {data : List Nat} :
    ∀ {n off ps off2}, parseProps data off n = some (ps, off2) → off ≤ off2 := by
  intro n
  induction n with
  | zero =>
    intro off ps off2 h
    simp only [parseProps, Option.some.injEq, Prod.mk.injEq] at h
    omega
  | succ k ih =>
    intro off ps off2 h
    unfold parseProps at h
    cases hn : getstring data off with
    | none => rw [hn] at h; exact absurd h (by simp)
    | some p1 =>
      obtain ⟨name, o1⟩ := p1
      rw [hn] at h
      dsimp only at h
      cases hv : getstring data o1 with
      | none => rw [hv] at h; exact absurd h (by simp)
      | some p2 =>
        obtain ⟨val, o2⟩ := p2
        rw [hv] at h
        dsimp only at h
        cases hr : parseProps data o2 k with
        | none => rw [hr] at h; exact absurd h (by simp)
        | some p3 =>
          obtain ⟨rest, o3⟩ := p3
          rw [hr] at h
          simp only [Option.some.injEq, Prod.mk.injEq] at h
          have ha := getstring_le hn
          have hb := getstring_le hv
          have hc := ih hr
          omega

/-- Each record consumes at least its 5 leading strings and 40 integer
bytes, so the cursor strictly advances; used to show the parse-loop fuel
never runs out. -/
theorem parseRecord_advance {data : List Nat} {off : Nat} {r : FileRecord} {off2 : Nat}
    (h : parseRecord data off = some (r, off2)) : off < off2 := by
  unfold parseRecord at h
  cases h1 : getstring data off with
  | none => rw [h1] at h; exact absurd h (by simp)
  | some p =>
    obtain ⟨dom, o1⟩ := p
    rw [h1] at h
    dsimp only at h
    cases h2 : getstring data o1 with
    | none => rw [h2] at h; exact absurd h (by simp)
    | some p =>
      obtain ⟨fn, o2⟩ := p
      rw [h2] at h
      dsimp only at h
      cases h3 : getstring data o2 with
      | none => rw [h3] at h; exact absurd h (by simp)
      | some p =>
        obtain ⟨lt, o3⟩ := p
        rw [h3] at h
        dsimp only at h
        cases h4 : getstring data o3 with
        | none => rw [h4] at h; exact absurd h (by simp)
        | some p =>
          obtain ⟨dh, o4⟩ := p
          rw [h4] at h
          dsimp only at h
          cases h5 : getstring data o4 with
          | none => rw [h5] at h; exact absurd h (by simp)
          | some p =>
            obtain ⟨u1, o5⟩ := p
            rw [h5] at h
            dsimp only at h
            cases h6 : getint data o5 2 with
            | none => rw [h6] at h; exact absurd h (by simp)
            | some p =>
              obtain ⟨md, o6⟩ := p
              rw [h6] at h
              dsimp only at h
              cases h7 : getint data o6 4 with
              | none => rw [h7] at h; exact absurd h (by simp)
              | some p =>
                obtain ⟨u2, o7⟩ := p
                rw [h7] at h
                dsimp only at h
                cases h8 : getint data o7 4 with
                | none => rw [h8] at h; exact absurd h (by simp)
                | some p =>
                  obtain ⟨u3, o8⟩ := p
                  rw [h8] at h
                  dsimp only at h
                  cases h9 : getint data o8 4 with
                  | none => rw [h9] at h; exact absurd h (by simp)
                  | some p =>
                    obtain ⟨uid, o9⟩ := p
                    rw [h9] at h
                    dsimp only at h
                    cases h10 : getint data o9 4 with
                    | none => rw [h10] at h; exact absurd h (by simp)
                    | some p =>
                      obtain ⟨gid, o10⟩ := p
                      rw [h10] at h
                      dsimp only at h
                      cases h11 : getint data o10 4 with
                      | none => rw [h11] at h; exact absurd h (by simp)
                      | some p =>
                        obtain ⟨mt, o11⟩ := p
                        rw [h11] at h
                        dsimp only at h
                        cases h12 : getint data o11 4 with
                        | none => rw [h12] at h; exact absurd h (by simp)
                        | some p =>
                          obtain ⟨at2, o12⟩ := p
                          rw [h12] at h
                          dsimp only at h
                          cases h13 : getint data o12 4 with
                          | none => rw [h13] at h; exact absurd h (by simp)
                          | some p =>
                            obtain ⟨ct, o13⟩ := p
                            rw [h13] at h
                            dsimp only at h
                            cases h14 : getint data o13 8 with
                            | none => rw [h14] at h; exact absurd h (by simp)
                            | some p =>
                              obtain ⟨fl, o14⟩ := p
                              rw [h14] at h
                              dsimp only at h
                              cases h15 : getint data o14 1 with
                              | none => rw [h15] at h; exact absurd h (by simp)
                              | some p =>
                                obtain ⟨fg, o15⟩ := p
                                rw [h15] at h
                                dsimp only at h
                                cases h16 : getint data o15 1 with
                                | none => rw [h16] at h; exact absurd h (by simp)
                                | some p =>
                                  obtain ⟨np, o16⟩ := p
                                  rw [h16] at h
                                  dsimp only at h
                                  cases h17 : parseProps data o16 np with
                                  | none => rw [h17] at h; exact absurd h (by simp)
                                  | some p =>
                                    obtain ⟨rp, o17⟩ := p
                                    rw [h17] at h
                                    dsimp only at h
                                    simp only [Option.some.injEq, Prod.mk.injEq] at h
                                    have e1 := getstring_le h1
                                    have e2 := getstring_le h2
                                    have e3 := getstring_le h3
                                    have e4 := getstring_le h4
                                    have e5 := getstring_le h5
                                    have e6 := getint_offset h6
                                    have e7 := getint_offset h7
                                    have e8 := getint_offset h8
                                    have e9 := getint_offset h9
                                    have e10 := getint_offset h10
                                    have e11 := getint_offset h11
                                    have e12 := getint_offset h12
                                    have e13 := getint_offset h13
                                    have e14 := getint_offset h14
                                    have e15 := getint_offset h15
                                    have e16 := getint_offset h16
                                    have e17 := parseProps_mono h17
                                    omega

/-- With fuel at least `data.length - off`, more fuel does not change the
parse loop: the zero-fuel arm of `parseLoopAux` is unreachable from
`process_mbdb_file`'s initial fuel `data.length + 1`. -/
theorem parseLoopAux_fuel {data : List Nat} :
    ∀ {fuel off}, data.length ≤ off + fuel →
      parseLoopAux data (fuel + 1) off = parseLoopAux data fuel off := by
  intro fuel
  induction fuel with
  | zero =>
    intro off hle
    unfold parseLoopAux
    rw [if_neg (by omega), if_neg (by omega)]
  | succ k ih =>
    intro off hle
    conv_lhs => rw [parseLoopAux]
    conv_rhs => rw [parseLoopAux]
    by_cases hlt : off < data.length
    · rw [if_pos hlt, if_pos hlt]
      cases hr : parseRecord data off with
      | none => rfl
      | some p =>
        obtain ⟨r, off2⟩ := p
        have hadv := parseRecord_advance hr
        dsimp only
        rw [ih (by omega)]
    · rw [if_neg hlt, if_neg hlt]
end RecoverMedia
